import Mathlib

/-!
Verification of the libsolv SAT-solver subsystem shipped in this repository
(headers under `include/solv/`: `queue.h`, `rules.h`, `solver.h`, `problems.h`).

The embedding follows the source: functions whose bodies are present in the
headers as `static inline` code (`queue_pop`, `queue_shift`,
`solver_disablerule`, `solver_enablerule`) and the literal-enumeration macro
`FOR_RULELITERALS` are translated directly.  Operations whose bodies live in
the library's `.c` files (absent from the repository, only declared in the
headers) are modelled from the specification; each such definition carries a
doc comment starting with `Modelled from the spec:`.
-/

namespace Libsolv

/-! ## Queue (`queue.h`, lines 22-27) -/

/-- The `Queue` struct of `queue.h`.  `elements` is the address of the first
element, `count` the number of elements, `alloc` the base address of the
allocation, `left` the free space after `elements + count`.  Memory is passed
separately as a read function on addresses. -/
structure Queue where
  elements : Int
  count : Int
  alloc : Int
  left : Int
deriving DecidableEq, Repr

/-- `queue_shift` (`queue.h` lines 47-54): removes and returns the first
element; on an empty queue returns 0 and changes nothing. -/
def queue_shift (mem : Int → Int) (q : Queue) : Int × Queue :=
  if q.count = 0 then (0, q)
  else (mem q.elements, { q with count := q.count - 1, elements := q.elements + 1 })

/-- `queue_pop` (`queue.h` lines 56-63): removes and returns the last
element; on an empty queue returns 0 and changes nothing. -/
def queue_pop (mem : Int → Int) (q : Queue) : Int × Queue :=
  if q.count = 0 then (0, q)
  else (mem (q.elements + q.count - 1), { q with count := q.count - 1, left := q.left + 1 })

/-! ## Rule (`rules.h`, lines 38-46) -/

/-- The `Rule` struct of `rules.h`.  `p` is the first literal, `d` the offset
into the shared `whatprovidesdata` pool (0 for binary/assertion rules, and
`-d - 1` when the rule is disabled), `w1`/`w2` the watches, `n1`/`n2` the
watch-list links. -/
structure Rule where
  p : Int
  d : Int
  w1 : Int
  w2 : Int
  n1 : Int
  n2 : Int
deriving DecidableEq, Repr

/-- `solver_disablerule` (`rules.h` lines 90-95): `if (r->d >= 0) r->d = -r->d - 1;`. -/
def solver_disablerule (r : Rule) : Rule :=
  if 0 ≤ r.d then { r with d := -r.d - 1 } else r

/-- `solver_enablerule` (`rules.h` lines 101-106): `if (r->d < 0) r->d = -r->d - 1;`. -/
def solver_enablerule (r : Rule) : Rule :=
  if r.d < 0 then { r with d := -r.d - 1 } else r

/-- The decoded `d` value used by `FOR_RULELITERALS` (`solver.h` line 417):
`pp = r->d < 0 ? -r->d - 1 : r->d`. -/
def rule_dd (r : Rule) : Int :=
  if r.d < 0 then -r.d - 1 else r.d

/-- A rule is enabled iff its `d` field is non-negative (`rules.h` line 42:
disabled rules store `~d`, aka `-d - 1`). -/
def enabledRule (r : Rule) : Bool :=
  decide (0 ≤ r.d)

/-- The literal sequence of a rule as enumerated by `FOR_RULELITERALS`
(`solver.h` lines 416-419): start with `l = r->p`; if the decoded `d` is 0
the remaining literals are `r->w2` (none if `w2 == 0`, the assertion case);
otherwise they are the 0-terminated list at the decoded offset in
`whatprovidesdata`.  The loop stops at the first literal 0. -/
def ruleliterals (wpd : List Int) (r : Rule) : List Int :=
  if r.p = 0 then []
  else if rule_dd r ≤ 0 then
    r.p :: (if r.w2 = 0 then [] else [r.w2])
  else
    r.p :: (wpd.drop (rule_dd r).toNat).takeWhile (fun l => l ≠ 0)

/-! ## Partial assignments and unit propagation

The propagation engine's body lives in `src/solver.c`, which is not part of
this repository (only `solver.h` is); it is modelled from the spec below. -/

/-- Value of a literal under a partial assignment.  The assignment is a list
indexed by package identifier minus one (`solver.h` `decisionmap` semantics:
undecided / installed / conflicted); a negative literal is the negation of
its package's value. -/
def litVal (A : List (Option Bool)) (l : Int) : Option Bool :=
  if 0 < l then A.getD (l.toNat - 1) none
  else (A.getD ((-l).toNat - 1) none).map (fun b => !b)

/-- Make literal `l` true in the partial assignment. -/
def assignLit (A : List (Option Bool)) (l : Int) : List (Option Bool) :=
  if 0 < l then A.set (l.toNat - 1) (some true)
  else A.set ((-l).toNat - 1) (some false)

/-- The rule has at least one literal true under the partial assignment. -/
def hasTrueLit (wpd : List Int) (A : List (Option Bool)) (r : Rule) : Bool :=
  (ruleliterals wpd r).any (fun l => litVal A l == some true)

/-- Number of literals of the rule still undecided under the partial assignment. -/
def undecidedCount (wpd : List Int) (A : List (Option Bool)) (r : Rule) : Nat :=
  ((ruleliterals wpd r).filter (fun l => litVal A l == none)).length

/-- Every literal of the rule is false: the rule is violated. -/
def isConflicting (wpd : List Int) (A : List (Option Bool)) (r : Rule) : Bool :=
  (ruleliterals wpd r).all (fun l => litVal A l == some false)

/-- The rule is unit: no true literal and exactly one undecided literal. -/
def isUnitRule (wpd : List Int) (A : List (Option Bool)) (r : Rule) : Bool :=
  !hasTrueLit wpd A r && (undecidedCount wpd A r == 1)

/-- The first undecided literal of the rule (the literal a unit rule forces). -/
def forcedLit (wpd : List Int) (A : List (Option Bool)) (r : Rule) : Option Int :=
  (ruleliterals wpd r).find? (fun l => litVal A l == none)

/-- Result of running propagation: a violated rule, a fixed point, or fuel
exhaustion. -/
inductive PropResult where
  | conflict (r : Rule)
  | fixedpoint (A : List (Option Bool))
  | fuelout
deriving DecidableEq, Repr

/-- Modelled from the spec: exhaustive unit propagation (`propagate` in the
missing `src/solver.c`; spec section 4.2).  Repeatedly: report a violated
enabled rule as a conflict; otherwise force the remaining literal of a unit
enabled rule true and recurse; otherwise the partial assignment is a fixed
point.  Fuel bounds the recursion; exhaustion is reported as `fuelout`,
never as a fixed point. -/
def propagate (wpd : List Int) (rules : List Rule) :
    Nat → List (Option Bool) → PropResult
  | 0, _ => .fuelout
  | fuel + 1, A =>
    match rules.find? (fun r => enabledRule r && isConflicting wpd A r) with
    | some r => .conflict r
    | none =>
      match rules.find? (fun r => enabledRule r && isUnitRule wpd A r) with
      | none => .fixedpoint A
      | some r =>
        match forcedLit wpd A r with
        | some l => propagate wpd rules fuel (assignLit A l)
        | none => .fuelout

/-! ## Search (decision engine) and the final assignment

`solver_solve`'s body lives in the missing `src/solver.c`; the search is
modelled from the spec (section 4.3): decide each package in turn, backtrack
on failure, succeed only when every enabled rule is satisfied. -/

/-- Value of a literal under a total assignment (final `decisionmap`:
`true` = installed). -/
def evalLit (A : List Bool) (l : Int) : Bool :=
  if 0 < l then A.getD (l.toNat - 1) false
  else !(A.getD ((-l).toNat - 1) false)

/-- The rule has at least one true literal under the total assignment. -/
def ruleSatisfied (wpd : List Int) (A : List Bool) (r : Rule) : Bool :=
  (ruleliterals wpd r).any (evalLit A)

/-- Every enabled rule is satisfied by the total assignment. -/
def checkAll (wpd : List Int) (rules : List Rule) (A : List Bool) : Bool :=
  rules.all (fun r => !enabledRule r || ruleSatisfied wpd A r)

/-- Modelled from the spec: the decide/backtrack search of the missing
`src/solver.c` — branch on package `k` (install first, then not-install),
accept a total assignment only if every enabled rule is satisfied. -/
def search (wpd : List Int) (rules : List Rule) : Nat → List Bool → Option (List Bool)
  | 0, A => if checkAll wpd rules A then some A else none
  | k + 1, A =>
    match search wpd rules k (A.set k true) with
    | some A2 => some A2
    | none => search wpd rules k (A.set k false)

/-- Modelled from the spec: `solver_solve` (declared in `solver.h` line 361,
body in the missing `src/solver.c`) as a function from the rule set over
packages `1..n` to an optional total satisfying assignment. -/
def solver_solve (wpd : List Int) (rules : List Rule) (n : Nat) : Option (List Bool) :=
  search wpd rules n (List.replicate n false)

/-! ## Problems on global unsolvability (C9)

`problems.c` / the Unsolvable path of `solver.c` are not in the repository
(`problems.h` only declares `solver_problem_count`, `solver_findproblemrule`);
they are modelled from the spec below. -/

/-- Terminal state of a solve: a satisfying assignment, or `Unsolvable` with
the recorded problems attached (`solver.h` line 136: `Queue problems` is a
list of lists of conflicting rules). -/
inductive SolveOutcome where
  | solved (A : List Bool)
  | unsolvable (problems : List (List Rule))
deriving DecidableEq, Repr

/-- Modelled from the spec: the full solver run (`solver_solve` body in the
missing `src/solver.c`).  On global unsolvability — no assignment satisfies
the enabled rules — the jointly unsatisfiable enabled rules are recorded as
a problem (spec sections 4.4 and 7: Unsolvable is a first-class terminal
state carrying Problems, not an error code). -/
def solver_run (wpd : List Int) (rules : List Rule) (n : Nat) : SolveOutcome :=
  match solver_solve wpd rules n with
  | some A => .solved A
  | none => .unsolvable [rules.filter (fun r => enabledRule r)]

/-- `solver_problem_count` (declared in `problems.h` line 47): the number of
recorded problems. -/
def solver_problem_count (problems : List (List Rule)) : Nat :=
  problems.length

/-- `solver_findproblemrule` (declared in `problems.h` line 60): a
representative rule of a recorded problem. -/
def solver_findproblemrule (problem : List Rule) : Option Rule :=
  problem.head?

/-! ## Decision map, trail and backtracking (C3)

The decision/backtrack loop lives in the missing `src/solver.c`; the state
and its two mutations are modelled from the spec below. -/

/-- The decision-relevant solver state: `decisionmap` (`solver.h` lines
124-127: `0` undecided, `+L` installed at level `L`, `-L` conflicted at
level `L`) and the decision trail (`decisionq`, `solver.h` line 120), each
entry a literal paired with the level it was recorded at. -/
structure DecisionState where
  decisionmap : Int → Int
  trail : List (Int × Nat)

/-- The package identifier a literal refers to. -/
def litPkg (l : Int) : Int :=
  if 0 < l then l else -l

/-- The two solver operations that mutate the decision state: record an
assignment (a decision or a propagation consequence) or backtrack to a
level. -/
inductive DecisionOp where
  | assign (l : Int) (lvl : Nat)
  | backtrack (lvl : Nat)
deriving DecidableEq, Repr

/-- Modelled from the spec: precondition of each operation — the solver
records an assignment only for a still-undecided package, with a nonzero
literal, at a level of at least 1 (level 0 in `decisionmap` means
undecided). -/
def validOp (st : DecisionState) (op : DecisionOp) : Prop :=
  match op with
  | .assign l lvl => st.decisionmap (litPkg l) = 0 ∧ l ≠ 0 ∧ 1 ≤ lvl
  | .backtrack _ => True

/-- Modelled from the spec: the effect of each operation (spec section 3,
Assignment and Decision trail; revert code in the missing `src/solver.c`).
Assigning literal `l` at level `lvl` sets `decisionmap[pkg]` to `+lvl`
(installed) or `-lvl` (conflicted) and appends to the trail; backtracking to
`lvl` resets every `decisionmap` entry recorded at a level `> lvl` to
undecided and removes the trail entries recorded above `lvl`. -/
def stepOp (st : DecisionState) (op : DecisionOp) : DecisionState :=
  match op with
  | .assign l lvl =>
      { decisionmap := fun q =>
          if q = litPkg l then (if 0 < l then (lvl : Int) else -(lvl : Int))
          else st.decisionmap q,
        trail := st.trail ++ [(l, lvl)] }
  | .backtrack lvl =>
      { decisionmap := fun q =>
          if lvl < (st.decisionmap q).natAbs then 0 else st.decisionmap q,
        trail := st.trail.filter (fun e => e.2 ≤ lvl) }

/-! ## Rule store and `add_rule` deduplication (C4)

`solver_addrule`/`solver_unifyrules` are declared in `rules.h` (lines
108-109) but their bodies live in the missing `src/rules.c`; the store-level
operation is modelled from the spec below (section 4.1). -/

/-- A rule as seen by the store-level dedup: its literal list and whether it
is a learnt rule (class `SOLVER_RULE_LEARNT` of `rules.h`). -/
structure StoreRule where
  lits : List Int
  learnt : Bool
deriving DecidableEq, Repr

/-- Two literal lists denote the same clause: equal as multisets
(order-independent). -/
def sameclause (a b : List Int) : Bool :=
  decide (Multiset.ofList a = Multiset.ofList b)

/-- Index of the first non-learnt rule in the store whose literal multiset
equals `lits`. -/
def findclause (lits : List Int) : List StoreRule → Option Nat
  | [] => none
  | r :: rest =>
    if !r.learnt && sameclause r.lits lits then some 0
    else (findclause lits rest).map (fun i => i + 1)

/-- Modelled from the spec: `add_rule(literals) -> RuleId` (spec section 4.1;
body in the missing `src/rules.c`).  A non-learnt rule is deduplicated
against an existing non-learnt rule with the identical literal multiset:
the existing id is returned and nothing is appended; otherwise (and always
for learnt rules, which are exempt from unification) the rule is appended
and its fresh id returned. -/
def add_rule (store : List StoreRule) (lits : List Int) (learnt : Bool) :
    Nat × List StoreRule :=
  if learnt then (store.length, store ++ [{ lits := lits, learnt := true }])
  else
    match findclause lits store with
    | some i => (i, store)
    | none => (store.length, store ++ [{ lits := lits, learnt := false }])

/-- No two distinct non-learnt RuleIds in the store denote the same clause. -/
def nodupNonLearnt (store : List StoreRule) : Prop :=
  ∀ (i j : Nat) (ri rj : StoreRule),
    store.get? i = some ri → store.get? j = some rj →
    ri.learnt = false → rj.learnt = false →
    sameclause ri.lits rj.lits = true → i = j

/-! ## Branching tie-break and transaction determinism (C5)

The branching policy and transaction builder (`policy.c`, `transaction.c`)
are not in the repository (`policy.h`/`transaction.h` only declare them);
both are modelled from the spec below. -/

/-- Modelled from the spec: the policy-layer branching pick (spec section
4.3; body in the missing `src/policy.c`): among candidate packages keep the
one with the strictly highest policy score, ties broken by the lowest
package identifier for determinism. -/
def pickbest (score : Int → Int) : List Int → Option Int
  | [] => none
  | p :: rest =>
    match pickbest score rest with
    | none => some p
    | some q =>
      if score q < score p ∨ (score q = score p ∧ p < q) then some p else some q

/-- A transaction step (spec section 3; only the install/erase diff kinds
are needed here). -/
inductive TransStep where
  | install (pkg : Nat)
  | erase (pkg : Nat)
deriving DecidableEq, Repr

/-- Modelled from the spec: `solver_create_transaction` (declared in
`solver.h` line 362, body in the missing `src/transaction.c`): diff the
installed-set snapshot against the final assignment, package by package. -/
def solver_create_transaction (installed A : List Bool) : List TransStep :=
  (List.range A.length).filterMap (fun i =>
    match installed.getD i false, A.getD i false with
    | false, true => some (TransStep.install (i + 1))
    | true, false => some (TransStep.erase (i + 1))
    | _, _ => none)

/-- Modelled from the spec: a whole run — `solver_solve` followed by
`solver_create_transaction` — as a function of the rule set, the package
count, and the installed snapshot. -/
def solve_transaction (wpd : List Int) (rules : List Rule) (n : Nat)
    (installed : List Bool) : Option (List TransStep) :=
  (solver_solve wpd rules n).map (solver_create_transaction installed)

/-! ## Rule construction and the three rule shapes (C6)

`solver_addrule` is declared in `rules.h` line 108; its body lives in the
missing `src/rules.c` and is modelled from the representation comments of
`rules.h` (lines 32-44). -/

/-- Modelled from the spec and the `rules.h` representation comments:
`solver_addrule(solv, p, p2, d)` builds the stored rule record.  A rule with
`d == 0` stores its (possibly zero) second literal `p2` inline in `w2`
("Binary rule: p = first literal, d = 0, w2 = second literal, w1 = p"; with
`w2 == 0` it is an assertion); otherwise `d` is the whatprovides offset of
the 0-terminated provider list and `w2` holds the first provider. -/
def solver_addrule (wpd : List Int) (p p2 d : Int) : Rule :=
  if d = 0 then { p := p, d := 0, w1 := p, w2 := p2, n1 := 0, n2 := 0 }
  else { p := p, d := d, w1 := p, w2 := wpd.getD d.toNat 0, n1 := 0, n2 := 0 }

/-- A rule as present in the store: created by `solver_addrule` and then
possibly disabled by `solver_disablerule`. -/
def storedRule (wpd : List Int) (p p2 d : Int) (disabled : Bool) : Rule :=
  if disabled then solver_disablerule (solver_addrule wpd p p2 d)
  else solver_addrule wpd p p2 d

end Libsolv

namespace Libsolv

/-! ## Theorems settled on the real header code -/

/-- Disabling leaves the decoded `d` unchanged. -/
theorem rule_dd_disable (r : Rule) : rule_dd (solver_disablerule r) = rule_dd r := by
  by_cases h : 0 ≤ r.d <;> simp [solver_disablerule, rule_dd, h] <;> omega

theorem disable_proj_p (r : Rule) : (solver_disablerule r).p = r.p := by
  unfold solver_disablerule; split <;> rfl

theorem disable_proj_w1 (r : Rule) : (solver_disablerule r).w1 = r.w1 := by
  unfold solver_disablerule; split <;> rfl

theorem disable_proj_w2 (r : Rule) : (solver_disablerule r).w2 = r.w2 := by
  unfold solver_disablerule; split <;> rfl

theorem disable_proj_n1 (r : Rule) : (solver_disablerule r).n1 = r.n1 := by
  unfold solver_disablerule; split <;> rfl

theorem disable_proj_n2 (r : Rule) : (solver_disablerule r).n2 = r.n2 := by
  unfold solver_disablerule; split <;> rfl

/-- C10: for every queue with `count == 0`, both `queue_pop` and `queue_shift`
return 0 and leave the queue unchanged (`elements`, `count`, `alloc` and
`left` keep their values): removing from an empty queue never underflows and
is distinguishable only by the 0 result. -/
theorem queue_pop_shift_empty (mem : Int → Int) (q : Queue) (h : q.count = 0) :
    queue_pop mem q = (0, q) ∧ queue_shift mem q = (0, q) := by
  simp [queue_pop, queue_shift, h]

/-- Witness for `queue_pop_shift_empty` at a concrete queue. -/
theorem queue_pop_shift_empty_witness :
    queue_pop (fun _ => 7) { elements := 3, count := 0, alloc := 3, left := 5 } =
      (0, { elements := 3, count := 0, alloc := 3, left := 5 }) ∧
    queue_shift (fun _ => 7) { elements := 3, count := 0, alloc := 3, left := 5 } =
      (0, { elements := 3, count := 0, alloc := 3, left := 5 }) :=
  queue_pop_shift_empty (fun _ => 7) { elements := 3, count := 0, alloc := 3, left := 5 } rfl

/-- C7 counterexample: on an already disabled rule (`d = -1`),
`solver_disablerule` is a no-op and `solver_enablerule` then maps `d` to 0,
so the disable/enable round trip does not restore the original `d`. -/
theorem disable_enable_roundtrip_cex :
    (solver_enablerule (solver_disablerule
        { p := -1, d := -1, w1 := -1, w2 := 2, n1 := 0, n2 := 0 })).d ≠
      ({ p := -1, d := -1, w1 := -1, w2 := 2, n1 := 0, n2 := 0 } : Rule).d := by
  decide

/-- C7 (amended): for every rule whose `d` is non-negative (an enabled rule),
`solver_disablerule` followed by `solver_enablerule` restores the rule, and
each of `solver_disablerule` and `solver_enablerule` is idempotent on every
rule. -/
theorem disable_enable_roundtrip_idem (r : Rule) :
    (0 ≤ r.d → solver_enablerule (solver_disablerule r) = r) ∧
    solver_disablerule (solver_disablerule r) = solver_disablerule r ∧
    solver_enablerule (solver_enablerule r) = solver_enablerule r := by
  obtain ⟨p, d, w1, w2, n1, n2⟩ := r
  refine ⟨fun h => ?_, ?_, ?_⟩ <;>
    simp only [solver_disablerule, solver_enablerule] <;>
    split_ifs <;> simp_all [Rule.mk.injEq] <;> omega

/-- Witness for `disable_enable_roundtrip_idem` at a concrete enabled rule. -/
theorem disable_enable_roundtrip_idem_witness :
    solver_enablerule (solver_disablerule { p := 1, d := 5, w1 := 1, w2 := 2, n1 := 0, n2 := 0 }) =
      { p := 1, d := 5, w1 := 1, w2 := 2, n1 := 0, n2 := 0 } ∧
    solver_disablerule (solver_disablerule { p := 1, d := 5, w1 := 1, w2 := 2, n1 := 0, n2 := 0 }) =
      solver_disablerule { p := 1, d := 5, w1 := 1, w2 := 2, n1 := 0, n2 := 0 } ∧
    solver_enablerule (solver_enablerule { p := 1, d := 5, w1 := 1, w2 := 2, n1 := 0, n2 := 0 }) =
      solver_enablerule { p := 1, d := 5, w1 := 1, w2 := 2, n1 := 0, n2 := 0 } :=
  ⟨(disable_enable_roundtrip_idem _).1 (by decide),
   (disable_enable_roundtrip_idem _).2.1,
   (disable_enable_roundtrip_idem _).2.2⟩

/-- C8: disabling an enabled rule changes only the `d` field: `p`, `w1`,
`w2`, `n1`, `n2` are unchanged, and the literal sequence enumerated by
`FOR_RULELITERALS` (which decodes `d < 0` as `-d - 1`) is identical before
and after disabling. -/
theorem disablerule_frame (wpd : List Int) (r : Rule) (h : 0 ≤ r.d) :
    (solver_disablerule r).p = r.p ∧ (solver_disablerule r).w1 = r.w1 ∧
    (solver_disablerule r).w2 = r.w2 ∧ (solver_disablerule r).n1 = r.n1 ∧
    (solver_disablerule r).n2 = r.n2 ∧
    ruleliterals wpd (solver_disablerule r) = ruleliterals wpd r := by
  refine ⟨disable_proj_p r, disable_proj_w1 r, disable_proj_w2 r,
    disable_proj_n1 r, disable_proj_n2 r, ?_⟩
  simp only [ruleliterals, disable_proj_p, disable_proj_w2, rule_dd_disable]

/-- Witness for `disablerule_frame` at a concrete enabled binary rule. -/
theorem disablerule_frame_witness :
    (solver_disablerule { p := -1, d := 0, w1 := -1, w2 := 2, n1 := 0, n2 := 0 }).p =
      ({ p := -1, d := 0, w1 := -1, w2 := 2, n1 := 0, n2 := 0 } : Rule).p ∧
    (solver_disablerule { p := -1, d := 0, w1 := -1, w2 := 2, n1 := 0, n2 := 0 }).w1 =
      ({ p := -1, d := 0, w1 := -1, w2 := 2, n1 := 0, n2 := 0 } : Rule).w1 ∧
    (solver_disablerule { p := -1, d := 0, w1 := -1, w2 := 2, n1 := 0, n2 := 0 }).w2 =
      ({ p := -1, d := 0, w1 := -1, w2 := 2, n1 := 0, n2 := 0 } : Rule).w2 ∧
    (solver_disablerule { p := -1, d := 0, w1 := -1, w2 := 2, n1 := 0, n2 := 0 }).n1 =
      ({ p := -1, d := 0, w1 := -1, w2 := 2, n1 := 0, n2 := 0 } : Rule).n1 ∧
    (solver_disablerule { p := -1, d := 0, w1 := -1, w2 := 2, n1 := 0, n2 := 0 }).n2 =
      ({ p := -1, d := 0, w1 := -1, w2 := 2, n1 := 0, n2 := 0 } : Rule).n2 ∧
    ruleliterals [9] (solver_disablerule { p := -1, d := 0, w1 := -1, w2 := 2, n1 := 0, n2 := 0 }) =
      ruleliterals [9] { p := -1, d := 0, w1 := -1, w2 := 2, n1 := 0, n2 := 0 } :=
  disablerule_frame [9] { p := -1, d := 0, w1 := -1, w2 := 2, n1 := 0, n2 := 0 } (by decide)

end Libsolv

namespace Libsolv

/-! ## Propagation fixed point (C2) -/

theorem one_le_undecided (wpd : List Int) (A : List (Option Bool)) (r : Rule)
    (hnc : isConflicting wpd A r = false) (hnt : hasTrueLit wpd A r = false) :
    1 ≤ undecidedCount wpd A r := by
  unfold isConflicting at hnc
  obtain ⟨x, hx, hpx⟩ := List.all_eq_false.mp hnc
  have hall := List.any_eq_false.mp hnt
  have hxt := hall x hx
  simp only [beq_iff_eq] at hpx hxt
  have hxnone : litVal A x = none := by
    cases hv : litVal A x with
    | none => rfl
    | some b => cases b <;> simp_all
  have hmem : x ∈ (ruleliterals wpd r).filter (fun l => litVal A l == none) :=
    List.mem_filter.mpr ⟨hx, by simp [hxnone]⟩
  exact List.length_pos.mpr (List.ne_nil_of_mem hmem)

theorem forcedLit_isSome_of_unit (wpd : List Int) (A : List (Option Bool)) (r : Rule)
    (hu : isUnitRule wpd A r = true) : (forcedLit wpd A r).isSome := by
  unfold isUnitRule at hu
  have hcount : undecidedCount wpd A r = 1 := by
    have := (Bool.and_eq_true _ _).mp hu
    simpa using this.2
  unfold undecidedCount at hcount
  have hne : (ruleliterals wpd r).filter (fun l => litVal A l == none) ≠ [] := by
    intro hnil; rw [hnil] at hcount; simp at hcount
  obtain ⟨x, hxmem⟩ := List.exists_mem_of_ne_nil _ hne
  obtain ⟨hxl, hxp⟩ := List.mem_filter.mp hxmem
  unfold forcedLit
  cases hf : (ruleliterals wpd r).find? (fun l => litVal A l == none) with
  | none => exact absurd hxp (by simpa using List.find?_eq_none.mp hf x hxl)
  | some l => simp

/-- C2: whenever unit propagation returns without reporting a conflict (a
fixed point: no pending forced literals remain), every enabled rule either
has at least one literal true under the current partial assignment or has at
least two literals still undecided. -/
theorem propagate_fixedpoint_invariant (wpd : List Int) (rules : List Rule)
    (fuel : Nat) (A0 A : List (Option Bool)) (r : Rule)
    (hfix : propagate wpd rules fuel A0 = PropResult.fixedpoint A)
    (hr : r ∈ rules) (hen : enabledRule r = true) :
    hasTrueLit wpd A r = true ∨ 2 ≤ undecidedCount wpd A r := by
  induction fuel generalizing A0 with
  | zero => simp [propagate] at hfix
  | succ fuel ih =>
    rw [propagate] at hfix
    split at hfix
    · simp at hfix
    · rename_i hc
      split at hfix
      · rename_i hu
        simp only [PropResult.fixedpoint.injEq] at hfix
        subst hfix
        have hcr : isConflicting wpd A0 r = false := by
          have := List.find?_eq_none.mp hc r hr
          simpa [hen] using this
        have hur : isUnitRule wpd A0 r = false := by
          have := List.find?_eq_none.mp hu r hr
          simpa [hen] using this
        by_cases ht : hasTrueLit wpd A0 r = true
        · exact Or.inl ht
        · right
          rw [Bool.not_eq_true] at ht
          have h1 := one_le_undecided wpd A0 r hcr ht
          have hne1 : undecidedCount wpd A0 r ≠ 1 := by
            unfold isUnitRule at hur
            rw [ht] at hur
            simpa using hur
          omega
      · split at hfix
        · exact ih _ hfix
        · simp at hfix

/-- Witness for `propagate_fixedpoint_invariant`: a single enabled binary
rule with both literals undecided is a propagation fixed point. -/
theorem propagate_fixedpoint_invariant_witness :
    hasTrueLit [] [none, none] { p := 1, d := 0, w1 := 1, w2 := 2, n1 := 0, n2 := 0 } = true ∨
    2 ≤ undecidedCount [] [none, none] { p := 1, d := 0, w1 := 1, w2 := 2, n1 := 0, n2 := 0 } :=
  propagate_fixedpoint_invariant [] [{ p := 1, d := 0, w1 := 1, w2 := 2, n1 := 0, n2 := 0 }]
    1 [none, none] [none, none] { p := 1, d := 0, w1 := 1, w2 := 2, n1 := 0, n2 := 0 }
    (by decide) (by simp) (by decide)

/-! ## Solved assignments satisfy requires rules (C1) -/

theorem search_sound (wpd : List Int) (rules : List Rule) :
    ∀ (k : Nat) (A A2 : List Bool), search wpd rules k A = some A2 →
      checkAll wpd rules A2 = true := by
  intro k
  induction k with
  | zero =>
    intro A A2 h
    cases hch : checkAll wpd rules A with
    | true => simp only [search, hch, if_true] at h; cases h; exact hch
    | false => simp [search, hch] at h
  | succ k ih =>
    intro A A2 h
    rw [search] at h
    cases h1 : search wpd rules k (A.set k true) with
    | some A3 => rw [h1] at h; cases h; exact ih _ _ h1
    | none => rw [h1] at h; exact ih _ _ h

/-- C1: for every job on which the solve succeeds and every package `p`
installed in the final assignment, each enabled hard requires-rule of `p`
(of the form `-p ∨ provider1 ∨ …`) has at least one literal true under the
final assignment: at least one required provider is also installed. -/
theorem requires_rule_has_installed_provider
    (wpd : List Int) (rules : List Rule) (n : Nat) (A : List Bool)
    (r : Rule) (p : Int) (provs : List Int)
    (hsolve : solver_solve wpd rules n = some A)
    (hr : r ∈ rules) (hen : enabledRule r = true)
    (hlits : ruleliterals wpd r = -p :: provs)
    (hp : 0 < p)
    (hprovs : ∀ q ∈ provs, 0 < q)
    (hinst : A.getD (p.toNat - 1) false = true) :
    ∃ q ∈ provs, A.getD (q.toNat - 1) false = true := by
  have hchk := search_sound wpd rules n _ A hsolve
  have hsat : ruleSatisfied wpd A r = true := by
    have hall := List.all_eq_true.mp hchk r hr
    rw [hen] at hall
    simpa using hall
  unfold ruleSatisfied at hsat
  rw [hlits] at hsat
  simp only [List.any_cons, Bool.or_eq_true, List.any_eq_true] at hsat
  have hneg : evalLit A (-p) = false := by
    unfold evalLit
    have h0 : ¬ (0 < -p) := by omega
    rw [if_neg h0]
    simp only [neg_neg]
    rw [hinst]
    decide
  cases hsat with
  | inl h => rw [hneg] at h; cases h
  | inr h =>
    obtain ⟨q, hq, hqt⟩ := h
    refine ⟨q, hq, ?_⟩
    have hq0 := hprovs q hq
    unfold evalLit at hqt
    simpa [hq0] using hqt

/-- Witness for `requires_rule_has_installed_provider`: package 1 requires
provider 2, the solve installs both. -/
theorem requires_rule_witness :
    ∃ q ∈ [(2 : Int)], [true, true].getD (q.toNat - 1) false = true :=
  requires_rule_has_installed_provider [] [{ p := -1, d := 0, w1 := -1, w2 := 2, n1 := 0, n2 := 0 }]
    2 [true, true] { p := -1, d := 0, w1 := -1, w2 := 2, n1 := 0, n2 := 0 } 1 [2]
    (by decide) (by simp) (by decide) (by decide) (by decide)
    (by intro q hq; simp at hq; omega) (by decide)

end Libsolv

namespace Libsolv

/-! ## Unsolvable outcomes carry problems (C9) -/

theorem search_isSome_of_all_disabled (wpd : List Int) (rules : List Rule)
    (hdis : ∀ r ∈ rules, enabledRule r = false) :
    ∀ (k : Nat) (A : List Bool), (search wpd rules k A).isSome := by
  intro k
  induction k with
  | zero =>
    intro A
    have hch : checkAll wpd rules A = true := by
      apply List.all_eq_true.mpr
      intro r hr
      rw [hdis r hr]
      rfl
    simp [search, hch]
  | succ k ih =>
    intro A
    rw [search]
    cases h1 : search wpd rules k (A.set k true) with
    | some A2 => simp
    | none => exact absurd h1 (by have := ih (A.set k true); simp_all)

/-- C9: whenever a solve terminates `Unsolvable`, the recorded problem list
is non-empty (`solver_problem_count >= 1`) and every recorded problem
references at least one rule (`solver_findproblemrule` yields a rule):
global unsolvability is surfaced as first-class diagnostic data. -/
theorem unsolvable_has_problems (wpd : List Int) (rules : List Rule) (n : Nat)
    (problems : List (List Rule))
    (h : solver_run wpd rules n = SolveOutcome.unsolvable problems) :
    1 ≤ solver_problem_count problems ∧
      ∀ pb ∈ problems, (solver_findproblemrule pb).isSome := by
  unfold solver_run at h
  cases hs : solver_solve wpd rules n with
  | some A => rw [hs] at h; simp at h
  | none =>
    rw [hs] at h
    simp only [SolveOutcome.unsolvable.injEq] at h
    subst h
    refine ⟨by simp [solver_problem_count], ?_⟩
    intro pb hpb
    simp only [List.mem_singleton] at hpb
    subst hpb
    unfold solver_findproblemrule
    cases hfil : rules.filter (fun r => enabledRule r) with
    | cons r rest => simp
    | nil =>
      exfalso
      have hdis : ∀ r ∈ rules, enabledRule r = false := by
        intro r hr
        have := List.filter_eq_nil.mp hfil r hr
        simpa using this
      have := search_isSome_of_all_disabled wpd rules hdis n (List.replicate n false)
      rw [show search wpd rules n (List.replicate n false) = solver_solve wpd rules n from rfl,
        hs] at this
      simp at this

/-- Witness for `unsolvable_has_problems`: two contradictory assertion rules
over one package make the job unsolvable with one recorded problem. -/
theorem unsolvable_has_problems_witness :
    1 ≤ solver_problem_count
        [[{ p := 1, d := 0, w1 := 1, w2 := 0, n1 := 0, n2 := 0 },
          { p := -1, d := 0, w1 := -1, w2 := 0, n1 := 0, n2 := 0 }]] ∧
      ∀ pb ∈ [[({ p := 1, d := 0, w1 := 1, w2 := 0, n1 := 0, n2 := 0 } : Rule),
               { p := -1, d := 0, w1 := -1, w2 := 0, n1 := 0, n2 := 0 }]],
        (solver_findproblemrule pb).isSome :=
  unsolvable_has_problems []
    [{ p := 1, d := 0, w1 := 1, w2 := 0, n1 := 0, n2 := 0 },
     { p := -1, d := 0, w1 := -1, w2 := 0, n1 := 0, n2 := 0 }] 1
    [[{ p := 1, d := 0, w1 := 1, w2 := 0, n1 := 0, n2 := 0 },
      { p := -1, d := 0, w1 := -1, w2 := 0, n1 := 0, n2 := 0 }]]
    (by decide)

end Libsolv

namespace Libsolv

/-! ## Decision-level invariant and backtracking correctness (C3) -/

/-- C3: once a package's assignment is recorded at level `L`, no valid
solver operation other than a backtrack to a level strictly below `L`
changes it; and after any backtrack to level `lvl`, no package retains an
assignment recorded at a level greater than `lvl` and every surviving trail
entry was recorded at a level at most `lvl`. -/
theorem decision_level_invariant (st : DecisionState) (op : DecisionOp)
    (p : Int) (L : Nat)
    (hv : validOp st op)
    (hset : st.decisionmap p ≠ 0)
    (hL : (st.decisionmap p).natAbs = L)
    (hnb : ∀ lvl, op = DecisionOp.backtrack lvl → L ≤ lvl) :
    (stepOp st op).decisionmap p = st.decisionmap p ∧
    (∀ (lvl : Nat) (q : Int),
      ((stepOp st (DecisionOp.backtrack lvl)).decisionmap q).natAbs ≤ lvl) ∧
    (∀ (lvl : Nat) (e : Int × Nat),
      e ∈ (stepOp st (DecisionOp.backtrack lvl)).trail → e.2 ≤ lvl) := by
  refine ⟨?_, ?_, ?_⟩
  · cases op with
    | assign l lvl =>
      obtain ⟨h0, hl, hlvl⟩ := hv
      simp only [stepOp]
      by_cases hq : p = litPkg l
      · rw [hq] at hset; exact absurd h0 hset
      · simp [hq]
    | backtrack lvl =>
      have hle := hnb lvl rfl
      simp only [stepOp]
      rw [if_neg (by omega)]
  · intro lvl q
    simp only [stepOp]
    split_ifs with h
    · simp
    · omega
  · intro lvl e he
    simp only [stepOp] at he
    have := (List.mem_filter.mp he).2
    simpa using this

/-- Witness for `decision_level_invariant`: package 1 is installed at level
2; assigning package 2 (conflicted) at level 3 leaves it unchanged, and
backtracking resets levels above the target. -/
theorem decision_level_invariant_witness :
    (stepOp { decisionmap := fun q => if q = 1 then 2 else 0, trail := [(1, 2)] }
        (DecisionOp.assign (-2) 3)).decisionmap 1 =
      ({ decisionmap := fun q => if q = 1 then 2 else 0, trail := [(1, 2)] } :
        DecisionState).decisionmap 1 ∧
    (∀ (lvl : Nat) (q : Int),
      ((stepOp { decisionmap := fun q => if q = 1 then 2 else 0, trail := [(1, 2)] }
          (DecisionOp.backtrack lvl)).decisionmap q).natAbs ≤ lvl) ∧
    (∀ (lvl : Nat) (e : Int × Nat),
      e ∈ (stepOp { decisionmap := fun q => if q = 1 then 2 else 0, trail := [(1, 2)] }
          (DecisionOp.backtrack lvl)).trail → e.2 ≤ lvl) :=
  decision_level_invariant
    { decisionmap := fun q => if q = 1 then 2 else 0, trail := [(1, 2)] }
    (DecisionOp.assign (-2) 3) 1 2
    ⟨by norm_num [litPkg], by norm_num, by norm_num⟩
    (by norm_num) (by norm_num)
    (fun lvl h => DecisionOp.noConfusion h)

end Libsolv

namespace Libsolv

/-! ## `add_rule` deduplication (C4) -/

theorem sameclause_iff (a b : List Int) :
    sameclause a b = true ↔ Multiset.ofList a = Multiset.ofList b := by
  simp [sameclause]

theorem findclause_some_spec (lits : List Int) :
    ∀ (s : List StoreRule) (i : Nat), findclause lits s = some i →
      ∃ r, s.get? i = some r ∧ r.learnt = false ∧ sameclause r.lits lits = true := by
  intro s
  induction s with
  | nil => intro i h; simp [findclause] at h
  | cons r0 rest ih =>
    intro i h
    rw [findclause] at h
    split at h
    · rename_i hcond
      cases h
      have hc := (Bool.and_eq_true _ _).mp hcond
      exact ⟨r0, rfl, by simpa using hc.1, hc.2⟩
    · obtain ⟨j, hj, hji⟩ := Option.map_eq_some'.mp h
      obtain ⟨r2, hr2, h1, h2⟩ := ih j hj
      subst hji
      exact ⟨r2, by simpa using hr2, h1, h2⟩

theorem findclause_none_spec (lits : List Int) :
    ∀ (s : List StoreRule), findclause lits s = none →
      ∀ (i : Nat) (r : StoreRule), s.get? i = some r → r.learnt = false →
        sameclause r.lits lits = false := by
  intro s
  induction s with
  | nil => intro _ i r h; simp at h
  | cons r0 rest ih =>
    intro h i r hget hnl
    rw [findclause] at h
    split at h
    · simp at h
    · rename_i hcond
      have hrest : findclause lits rest = none := Option.map_eq_none'.mp h
      cases i with
      | zero =>
        simp only [List.get?_cons_zero, Option.some.injEq] at hget
        subst hget
        cases hsc : sameclause r0.lits lits with
        | false => rfl
        | true => exact absurd (by rw [hnl, hsc]; rfl) hcond
      | succ i => exact ih hrest i r (by simpa using hget) hnl

theorem get?_append_singleton (s : List StoreRule) (x : StoreRule) (k : Nat) :
    (s ++ [x]).get? k =
      if k < s.length then s.get? k
      else if k = s.length then some x else none := by
  by_cases h1 : k < s.length
  · rw [if_pos h1, List.get?_append h1]
  · rw [if_neg h1]
    by_cases h2 : k = s.length
    · subst h2
      rw [if_pos rfl, List.get?_append_right (le_refl _)]
      simp
    · rw [if_neg h2, List.get?_append_right (by omega)]
      rw [List.get?_eq_none]
      simp only [List.length_singleton]
      omega

theorem nodup_append_aux (store : List StoreRule) (lits2 : List Int)
    (hf2 : findclause lits2 store = none)
    (k : Nat) (rk : StoreRule) (hgk : store.get? k = some rk) (hnlk : rk.learnt = false)
    (hs : Multiset.ofList rk.lits = Multiset.ofList lits2) : False := by
  have hfalse := findclause_none_spec lits2 store hf2 k rk hgk hnlk
  rw [(sameclause_iff _ _).mpr hs] at hfalse
  cases hfalse

/-- C4: a call of `add_rule` with a literal multiset identical (order
independently) to an existing non-learnt rule of a deduplicated store
returns the existing RuleId and appends nothing; and every `add_rule` call
(learnt or not) preserves the invariant that no two distinct non-learnt
RuleIds denote the same clause. -/
theorem add_rule_dedup (store : List StoreRule) (lits : List Int) (i : Nat) (r : StoreRule)
    (hinv : nodupNonLearnt store)
    (hget : store.get? i = some r) (hnl : r.learnt = false)
    (hsame : sameclause r.lits lits = true) :
    add_rule store lits false = (i, store) ∧
    ∀ (lits2 : List Int) (c : Bool), nodupNonLearnt (add_rule store lits2 c).2 := by
  constructor
  · cases hf : findclause lits store with
    | none =>
      have := findclause_none_spec lits store hf i r hget hnl
      rw [hsame] at this
      cases this
    | some j =>
      obtain ⟨rj, hjget, hjnl, hjsame⟩ := findclause_some_spec lits store j hf
      have hij : i = j := by
        apply hinv i j r rj hget hjget hnl hjnl
        rw [sameclause_iff] at hsame hjsame ⊢
        rw [hsame, hjsame]
      subst hij
      simp [add_rule, hf]
  · intro lits2 c
    cases c with
    | true =>
      intro i2 j2 ri rj hgi hgj hnli hnlj hs
      have h2 : (add_rule store lits2 true).2 = store ++ [{ lits := lits2, learnt := true }] := rfl
      rw [h2, get?_append_singleton] at hgi hgj
      split_ifs at hgi hgj <;>
        first
          | exact hinv i2 j2 ri rj hgi hgj hnli hnlj hs
          | (exfalso; exact Option.noConfusion hgi)
          | (exfalso; exact Option.noConfusion hgj)
          | (exfalso; cases hgi; simp at hnli)
          | (exfalso; cases hgj; simp at hnlj)
          | omega
    | false =>
      cases hf2 : findclause lits2 store with
      | some k =>
        have h2 : (add_rule store lits2 false).2 = store := by simp [add_rule, hf2]
        rw [h2]
        exact hinv
      | none =>
        have h2 : (add_rule store lits2 false).2 =
            store ++ [{ lits := lits2, learnt := false }] := by
          simp [add_rule, hf2]
        intro i2 j2 ri rj hgi hgj hnli hnlj hs
        rw [h2, get?_append_singleton] at hgi hgj
        split_ifs at hgi hgj <;>
          first
            | exact hinv i2 j2 ri rj hgi hgj hnli hnlj hs
            | (exfalso; exact Option.noConfusion hgi)
            | (exfalso; exact Option.noConfusion hgj)
            | omega
            | (exfalso; cases hgj;
               exact nodup_append_aux store lits2 hf2 i2 ri hgi hnli
                 (by simpa using (sameclause_iff _ _).mp hs))
            | (exfalso; cases hgi;
               exact nodup_append_aux store lits2 hf2 j2 rj hgj hnlj
                 (by simpa using ((sameclause_iff _ _).mp hs).symm))

/-- Witness for `add_rule_dedup`: adding `[2, 1]` to a store already holding
the non-learnt clause `[1, 2]` returns id 0 and appends nothing. -/
theorem add_rule_dedup_witness :
    add_rule [{ lits := [1, 2], learnt := false }] [2, 1] false =
      (0, [{ lits := [1, 2], learnt := false }]) ∧
    ∀ (lits2 : List Int) (c : Bool),
      nodupNonLearnt (add_rule [{ lits := [1, 2], learnt := false }] lits2 c).2 :=
  add_rule_dedup [{ lits := [1, 2], learnt := false }] [2, 1] 0
    { lits := [1, 2], learnt := false }
    (by
      intro i j ri rj hi hj _ _ _
      cases i with
      | zero =>
        cases j with
        | zero => rfl
        | succ j => simp at hj
      | succ i => simp at hi)
    rfl rfl (by decide)

end Libsolv

namespace Libsolv

/-! ## Determinism and the lowest-id tie-break (C5) -/

theorem pickbest_eq_none (score : Int → Int) :
    ∀ l : List Int, pickbest score l = none → l = [] := by
  intro l h
  cases l with
  | nil => rfl
  | cons p rest =>
    rw [pickbest] at h
    split at h
    · simp at h
    · split at h <;> simp at h

theorem pickbest_spec (score : Int → Int) :
    ∀ (l : List Int) (m : Int), pickbest score l = some m →
      m ∈ l ∧ ∀ p ∈ l, score p ≤ score m ∧ (score p = score m → m ≤ p) := by
  intro l
  induction l with
  | nil => intro m h; simp [pickbest] at h
  | cons p rest ih =>
    intro m h
    rw [pickbest] at h
    split at h
    · rename_i hq
      cases h
      have hrest : rest = [] := pickbest_eq_none score rest hq
      subst hrest
      refine ⟨List.mem_cons_self _ _, ?_⟩
      intro x hx
      simp only [List.mem_singleton] at hx
      subst hx
      exact ⟨le_refl _, fun _ => le_refl _⟩
    · rename_i q hq
      obtain ⟨hqmem, hqall⟩ := ih q hq
      split at h
      · rename_i hcond
        cases h
        refine ⟨List.mem_cons_self _ _, ?_⟩
        intro x hx
        rcases List.mem_cons.mp hx with rfl | hx2
        · exact ⟨le_refl _, fun _ => le_refl _⟩
        · obtain ⟨h1, h2⟩ := hqall x hx2
          rcases hcond with hlt | ⟨heq, hplt⟩
          · exact ⟨by omega, fun hx3 => by omega⟩
          · refine ⟨by omega, fun hx3 => ?_⟩
            have := h2 (by omega)
            omega
      · rename_i hcond
        cases h
        push_neg at hcond
        refine ⟨List.mem_cons_of_mem _ hqmem, ?_⟩
        intro x hx
        rcases List.mem_cons.mp hx with rfl | hx2
        · exact ⟨hcond.1, fun hx3 => hcond.2 hx3.symm⟩
        · exact hqall x hx2

/-- C5: the solve followed by the transaction build is a deterministic
function of its inputs — two runs on the exact same pool data, rule set and
installed snapshot yield the identical transaction — and the branching pick
resolves score ties by the lowest package identifier: the chosen candidate
has maximal policy score and is the least identifier among the candidates
achieving it. -/
theorem solve_transaction_deterministic (wpd : List Int) (rules : List Rule)
    (n : Nat) (installed : List Bool) (score : Int → Int) (cands : List Int)
    (m : Int) (hpick : pickbest score cands = some m) :
    solve_transaction wpd rules n installed = solve_transaction wpd rules n installed ∧
    m ∈ cands ∧
    ∀ p ∈ cands, score p ≤ score m ∧ (score p = score m → m ≤ p) := by
  obtain ⟨h1, h2⟩ := pickbest_spec score cands m hpick
  exact ⟨rfl, h1, h2⟩

/-- Witness for `solve_transaction_deterministic`: among candidates
`[3, 1, 2]` with equal scores, the pick is the lowest identifier, 1. -/
theorem solve_transaction_deterministic_witness :
    solve_transaction [] [] 0 [] = solve_transaction [] [] 0 [] ∧
    (1 : Int) ∈ [(3 : Int), 1, 2] ∧
    ∀ p ∈ [(3 : Int), 1, 2],
      (fun _ => (0 : Int)) p ≤ (fun _ => (0 : Int)) 1 ∧
      ((fun _ => (0 : Int)) p = (fun _ => (0 : Int)) 1 → (1 : Int) ≤ p) :=
  solve_transaction_deterministic [] [] 0 [] (fun _ => 0) [3, 1, 2] 1 (by decide)

/-! ## The three rule shapes (C6) -/

/-- C6 counterexample: a binary rule appended by `solver_addrule` and then
disabled is in the store with `d = -1`, so none of the three claimed
raw-field shapes (`w2 == 0`; `d == 0` with `w2 != 0`; `d > 0`) applies to
it, although it still denotes the two-literal clause `[-1, 2]`. -/
theorem rule_shape_cex :
    (storedRule [] (-1) 2 0 true).w2 ≠ 0 ∧
    ¬((storedRule [] (-1) 2 0 true).d = 0) ∧
    ¬(0 < (storedRule [] (-1) 2 0 true).d) ∧
    ruleliterals [] (storedRule [] (-1) 2 0 true) = [-1, 2] := by
  decide

/-- C6 (amended): every rule in the store — built by `solver_addrule` from a
nonzero first literal and a valid offset, whether still enabled or since
disabled — has exactly one of three shapes once `d` is decoded through the
disabled-rule encoding (`d < 0` denotes `-d - 1`): `w2 == 0` an assertion
whose only literal is `p`; decoded `d == 0` with `w2 != 0` a binary rule
with literals exactly `p` and `w2` (and `w1 == p`); decoded `d > 0` an n-ary
rule whose literals are `p` followed by the 0-terminated list at the decoded
offset in `whatprovidesdata`. -/
theorem rule_shape_trichotomy (wpd : List Int) (p p2 d : Int) (b : Bool)
    (hp : p ≠ 0) (hd : 0 ≤ d)
    (hwf : d ≠ 0 → wpd.getD d.toNat 0 ≠ 0) :
    ((storedRule wpd p p2 d b).w2 = 0 ∧
      ¬(rule_dd (storedRule wpd p p2 d b) = 0 ∧ (storedRule wpd p p2 d b).w2 ≠ 0) ∧
      ¬(0 < rule_dd (storedRule wpd p p2 d b)) ∧
      ruleliterals wpd (storedRule wpd p p2 d b) = [p]) ∨
    (¬((storedRule wpd p p2 d b).w2 = 0) ∧
      (rule_dd (storedRule wpd p p2 d b) = 0 ∧ (storedRule wpd p p2 d b).w2 ≠ 0) ∧
      ¬(0 < rule_dd (storedRule wpd p p2 d b)) ∧
      (storedRule wpd p p2 d b).w1 = p ∧
      ruleliterals wpd (storedRule wpd p p2 d b) = [p, (storedRule wpd p p2 d b).w2]) ∨
    (¬((storedRule wpd p p2 d b).w2 = 0) ∧
      ¬(rule_dd (storedRule wpd p p2 d b) = 0 ∧ (storedRule wpd p p2 d b).w2 ≠ 0) ∧
      (0 < rule_dd (storedRule wpd p p2 d b)) ∧
      ruleliterals wpd (storedRule wpd p p2 d b) =
        p :: (wpd.drop (rule_dd (storedRule wpd p p2 d b)).toNat).takeWhile
          (fun l => l ≠ 0)) := by
  by_cases hd0 : d = 0
  · subst hd0
    by_cases hp2 : p2 = 0
    · subst hp2
      left
      cases b <;>
        simp [storedRule, solver_addrule, solver_disablerule, rule_dd, ruleliterals, hp]
    · right; left
      cases b <;>
        simp [storedRule, solver_addrule, solver_disablerule, rule_dd, ruleliterals, hp, hp2]
  · right; right
    have hdpos : 0 < d := by omega
    have hw2 : wpd[d.toNat]?.getD 0 ≠ 0 := by simpa [List.getD] using hwf hd0
    have hneg1 : -d < 1 := by omega
    have hnle : ¬ d ≤ 0 := by omega
    have hnlt : ¬ d < 0 := by omega
    cases b <;>
      simp [storedRule, solver_addrule, solver_disablerule, rule_dd, ruleliterals,
        hp, hd0, hw2, hdpos, hd, hneg1, hnle, hnlt, List.getD]

/-- Witness for `rule_shape_trichotomy`: an n-ary rule at offset 1 of the
pool `[5, 6, 0]`, not disabled — the third shape applies. -/
theorem rule_shape_trichotomy_witness :
    ((storedRule [5, 6, 0] (-1) 0 1 false).w2 = 0 ∧
      ¬(rule_dd (storedRule [5, 6, 0] (-1) 0 1 false) = 0 ∧
        (storedRule [5, 6, 0] (-1) 0 1 false).w2 ≠ 0) ∧
      ¬(0 < rule_dd (storedRule [5, 6, 0] (-1) 0 1 false)) ∧
      ruleliterals [5, 6, 0] (storedRule [5, 6, 0] (-1) 0 1 false) = [-1]) ∨
    (¬((storedRule [5, 6, 0] (-1) 0 1 false).w2 = 0) ∧
      (rule_dd (storedRule [5, 6, 0] (-1) 0 1 false) = 0 ∧
        (storedRule [5, 6, 0] (-1) 0 1 false).w2 ≠ 0) ∧
      ¬(0 < rule_dd (storedRule [5, 6, 0] (-1) 0 1 false)) ∧
      (storedRule [5, 6, 0] (-1) 0 1 false).w1 = -1 ∧
      ruleliterals [5, 6, 0] (storedRule [5, 6, 0] (-1) 0 1 false) =
        [-1, (storedRule [5, 6, 0] (-1) 0 1 false).w2]) ∨
    (¬((storedRule [5, 6, 0] (-1) 0 1 false).w2 = 0) ∧
      ¬(rule_dd (storedRule [5, 6, 0] (-1) 0 1 false) = 0 ∧
        (storedRule [5, 6, 0] (-1) 0 1 false).w2 ≠ 0) ∧
      (0 < rule_dd (storedRule [5, 6, 0] (-1) 0 1 false)) ∧
      ruleliterals [5, 6, 0] (storedRule [5, 6, 0] (-1) 0 1 false) =
        -1 :: ([5, 6, 0].drop (rule_dd (storedRule [5, 6, 0] (-1) 0 1 false)).toNat).takeWhile
          (fun l => l ≠ 0)) :=
  rule_shape_trichotomy [5, 6, 0] (-1) 0 1 false (by decide) (by decide) (by decide)

end Libsolv
